import Mathlib

/-!
Shallow embedding of the durable local queue and state store of this
repository (`src/local_db_queue.py`, class `LocalDbQueue`), together with a
spec-modelled view of the OCO cancel operation (`cancel_opposite_order`),
and proofs of the stated properties.

Modelling conventions:
* SQLite rows of `pending_ops` become `PendingOp` values held in a list in
  rowid (insertion) order; `created_at` timestamps are drawn from a
  monotone `clock : Nat` on the store, standing for `datetime('now')`.
* Text payloads (`value` column) are modelled by `Val`, which represents a
  stored text by how `json.loads` reads it — the only way any payload of
  an `archive` or `clear_row` row is ever consumed. The drain sequences
  the per-row parses and propagates the first `JSONDecodeError` or
  `.get`-on-non-dict `AttributeError` as an `Except.error`, exactly as the
  unguarded `json.loads(r["value"]) if r["value"] else {}` loops do.
* Python `or`-defaulting on strings treats `""` as falsy; `orGenId` and
  `pyOrStr` model this.
* A plain SQL `INSERT` that hits the `id` primary key raises
  `sqlite3.IntegrityError`; such operations return `Except String QueueDB`
  and leave the store unchanged on error (the `with self._conn` context
  manager rolls the transaction back). `INSERT OR REPLACE` never errors:
  SQLite deletes the conflicting row and inserts a fresh one, so columns
  absent from the statement (`retries`, `created_at`, `last_attempt`)
  take their defaults again.
* `upsert_active_position` in the source binds the named SQL parameter
  `:last_update` but omits the key from the dict passed to `execute`, so
  sqlite3 raises `ProgrammingError` on every call; the embedding returns
  that error, and the write the statement describes is kept separately in
  the clearly spec-derived `upsert_active_position_spec`.
-/

namespace DbQueue

/-- Stored payload text of a `pending_ops.value` column, represented by
how `json.loads` reads it — all that the drain ever observes of the text:
* `raw s` — a non-empty text that is not valid JSON (most plain cell
  update payloads, e.g. `"ORDER_PLACED"`); `json.loads` raises
  `JSONDecodeError` on it.
* `jsonArchive rd cc` — the `json.dumps` text of
  `{"row_data": rd, "columns_to_clear": cc}` built by
  `add_archive_operation`.
* `jsonClear cols` — the `json.dumps` text of `{"columns": cols}` built by
  `add_clear_operations`.
* `jsonObj rd cc cols` — any other JSON-object text (e.g. a dict run
  through `json.dumps` by `add_cell_update`), abstracted by the three keys
  the drain ever reads with `.get`; `none` is an absent key.  Key values
  are abstracted at the shapes this module itself produces.
* `jsonNonObj s` — a valid-JSON text whose value is not an object (a
  serialized list, number, …): `json.loads` succeeds but the drain's
  `.get` raises `AttributeError`.
* `emptyText` — the empty text: falsy, so the drain skips the parse and
  takes `{}`. -/
inductive Val where
  | raw (s : String)
  | jsonArchive (row_data : List (String × String)) (columns_to_clear : List String)
  | jsonClear (columns : List String)
  | jsonObj (row_data : Option (List (String × String)))
      (columns_to_clear : Option (List String)) (columns : Option (List String))
  | jsonNonObj (s : String)
  | emptyText
deriving DecidableEq

/-- One row of the `pending_ops` table. -/
structure PendingOp where
  id : String
  type : String
  row_index : Int
  column : String
  value : Val
  retries : Nat
  created_at : Nat
  last_attempt : Option Nat
deriving DecidableEq

/-- One row of the `active_positions` table, with `archived` already in its
boolean reading (the source stores `INTEGER` via `int(bool(·))` and coerces
back with `bool(·)` in `get_all_active_positions`). -/
structure PosRow where
  buy_order_id : Option String
  tp_order_id : Option String
  sl_order_id : Option String
  quantity : Option Int
  status : Option String
  last_update : Option Nat
  price : Option Int
  row_index : Option Int
  take_profit : Option Int
  stop_loss : Option Int
  archived : Bool
deriving DecidableEq

/-- The caller-supplied `data` dict of `upsert_active_position`; `none`
stands for an absent key. -/
structure PosData where
  order_id : Option String := none
  buy_order_id : Option String := none
  tp_order_id : Option String := none
  sl_order_id : Option String := none
  quantity : Option Int := none
  status : Option String := none
  last_update : Option Nat := none
  price : Option Int := none
  row_index : Option Int := none
  take_profit : Option Int := none
  stop_loss : Option Int := none
  archived : Option Bool := none
deriving DecidableEq

/-- The durable store: `pending_ops` rows in rowid order, `active_positions`
rows, and the monotone clock that yields `datetime('now')` stamps and the
timestamp-based ids of `_gen_id`. -/
structure QueueDB where
  ops : List PendingOp
  positions : List (String × PosRow)
  clock : Nat
deriving DecidableEq

/-- `_gen_id`: the current UTC time rendered to text
(`datetime.utcnow().strftime("%Y%m%d%H%M%S%f")`), modelled as an injective
rendering of the clock: consecutive calls fall in distinct microseconds, so
distinct clock values yield distinct id texts, and only equality of ids is
ever observed by the store. -/
def gen_id (db : QueueDB) : String :=
  String.mk (List.replicate db.clock '1')

/-- Python `op_id or self._gen_id()`: `None` and `""` are falsy. -/
def orGenId (db : QueueDB) (op_id : Option String) : String :=
  match op_id with
  | some s => if s = "" then gen_id db else s
  | none => gen_id db

/-- `add_cell_update`: `INSERT OR REPLACE INTO pending_ops(id, type,
row_index, column, value)`. The conflicting row, if any, is deleted and the
new row is appended with default `retries`/`created_at`/`last_attempt`.
The source coerces the `value` argument to its payload text first — a
`str` is stored verbatim, a `dict`/`list` via `json.dumps`, anything else
via `str(value)` — so the argument is modelled directly by `Val`, the
parse-semantic representation of that text. -/
def add_cell_update (db : QueueDB) (row_index : Int) (column : String) (value : Val)
    (update_type : String := "cell_update") (op_id : Option String := none) : QueueDB :=
  let theId := orGenId db op_id
  { db with
    ops := db.ops.filter (fun op => op.id ≠ theId) ++
      [{ id := theId, type := update_type, row_index := row_index, column := column,
         value := value, retries := 0, created_at := db.clock,
         last_attempt := none }],
    clock := db.clock + 1 }

/-- `add_archive_operation`: returns without inserting when an `archive`
row for `row_index` already exists; otherwise a plain `INSERT`, which
raises on an `id` collision. `columns_to_clear or []` defaults a missing
list to `[]`. -/
def add_archive_operation (db : QueueDB) (row_index : Int)
    (row_data : List (String × String)) (columns_to_clear : Option (List String) := none)
    (op_id : Option String := none) : Except String QueueDB :=
  let archive_value := Val.jsonArchive row_data (columns_to_clear.getD [])
  if ∃ op ∈ db.ops, op.type = "archive" ∧ op.row_index = row_index then
    .ok db
  else
    let theId := orGenId db op_id
    if ∃ op ∈ db.ops, op.id = theId then
      .error "UNIQUE constraint failed: pending_ops.id"
    else
      .ok { db with
        ops := db.ops ++
          [{ id := theId, type := "archive", row_index := row_index, column := "row_data",
             value := archive_value, retries := 0, created_at := db.clock,
             last_attempt := none }],
        clock := db.clock + 1 }

/-- `add_clear_operations`: a plain `INSERT` of a `clear_row` row, which
raises on an `id` collision. -/
def add_clear_operations (db : QueueDB) (row_index : Int) (columns : List String)
    (op_id : Option String := none) : Except String QueueDB :=
  let theId := orGenId db op_id
  if ∃ op ∈ db.ops, op.id = theId then
    .error "UNIQUE constraint failed: pending_ops.id"
  else
    .ok { db with
      ops := db.ops ++
        [{ id := theId, type := "clear_row", row_index := row_index, column := "columns",
           value := Val.jsonClear columns, retries := 0, created_at := db.clock,
           last_attempt := none }],
      clock := db.clock + 1 }

/-- Result shape of `get_pending_count`. -/
structure Counts where
  updates : Nat
  archives : Nat
  clears : Nat
deriving DecidableEq

/-- `get_pending_count`: `COUNT(*)` per type for the three known kinds. -/
def get_pending_count (db : QueueDB) : Counts :=
  { updates := (db.ops.filter (fun op => op.type == "cell_update")).length,
    archives := (db.ops.filter (fun op => op.type == "archive")).length,
    clears := (db.ops.filter (fun op => op.type == "clear_row")).length }

/-- A drained `cell_update` row: the payload is handed back as the raw
stored text. -/
structure UpdateRow where
  id : String
  type : String
  row_index : Int
  column : String
  value : Val
deriving DecidableEq

/-- A drained `archive` row with its payload JSON expanded. -/
structure ArchiveRow where
  id : String
  type : String
  row_index : Int
  row_data : List (String × String)
  columns_to_clear : List String
deriving DecidableEq

/-- A drained `clear_row` row with its payload JSON expanded. -/
structure ClearRowOut where
  id : String
  type : String
  row_index : Int
  columns : List String
deriving DecidableEq

/-- Result shape of `get_batch_for_processing`. -/
structure Batch where
  updates : List UpdateRow
  archives : List ArchiveRow
  clears : List ClearRowOut
deriving DecidableEq

/-- `ORDER BY created_at` comparison. -/
def byCreated : PendingOp → PendingOp → Prop :=
  fun a b => a.created_at ≤ b.created_at

instance : DecidableRel byCreated :=
  fun a b => Nat.decLe a.created_at b.created_at

/-- `SELECT * FROM pending_ops WHERE type=? ORDER BY created_at LIMIT ?`.
The sort is stable, so rows tied on `created_at` keep rowid order, as the
`(type, created_at)` index yields. -/
def selectType (db : QueueDB) (t : String) (limit : Nat) : List PendingOp :=
  (((db.ops.filter (fun op => op.type == t)).insertionSort byCreated).take limit)

/-- `json.loads(r["value"]) if r["value"] else \x7b\x7d` followed by
`payload.get("row_data", \x7b\x7d)` / `payload.get("columns_to_clear", [])`
for an `archive` row: the module's own archive texts round-trip; a
`jsonClear` text parses to an object carrying neither key, so both `.get`s
default; any other JSON object yields its own keys (defaults where
absent); an empty text skips the parse; a JSON non-object makes `.get`
raise `AttributeError` and a non-JSON text makes `json.loads` raise. -/
def parseArchivePayload : Val → Except String ((List (String × String)) × List String)
  | .jsonArchive rd cc => .ok (rd, cc)
  | .jsonClear _ => .ok ([], [])
  | .jsonObj rd cc _ => .ok (rd.getD [], cc.getD [])
  | .jsonNonObj _ => .error "AttributeError: get on a non-dict JSON value"
  | .raw _ => .error "json.JSONDecodeError"
  | .emptyText => .ok ([], [])

/-- `payload.get("columns", [])` for a `clear_row` row, with the same
parse behaviour as `parseArchivePayload`. -/
def parseClearPayload : Val → Except String (List String)
  | .jsonClear cols => .ok cols
  | .jsonArchive _ _ => .ok []
  | .jsonObj _ _ cols => .ok (cols.getD [])
  | .jsonNonObj _ => .error "AttributeError: get on a non-dict JSON value"
  | .raw _ => .error "json.JSONDecodeError"
  | .emptyText => .ok []

/-- One iteration of the archive loop of `get_batch_for_processing`. -/
def drainArchiveRow (r : PendingOp) : Except String ArchiveRow :=
  match parseArchivePayload r.value with
  | .error e => .error e
  | .ok payload =>
      .ok { id := r.id, type := r.type, row_index := r.row_index,
            row_data := payload.1, columns_to_clear := payload.2 }

/-- One iteration of the clear loop of `get_batch_for_processing`. -/
def drainClearRow (r : PendingOp) : Except String ClearRowOut :=
  match parseClearPayload r.value with
  | .error e => .error e
  | .ok cols =>
      .ok { id := r.id, type := r.type, row_index := r.row_index,
            columns := cols }

/-- Run a fallible step over a list in order, stopping at the first error,
as a Python `for` loop over rows does when an iteration raises. -/
def mapExcept {α β : Type} (f : α → Except String β) : List α → Except String (List β)
  | [] => .ok []
  | a :: t =>
      match f a with
      | .error e => .error e
      | .ok b =>
          match mapExcept f t with
          | .error e => .error e
          | .ok rest => .ok (b :: rest)

/-- `get_batch_for_processing`: three `SELECT`s, no writes, so the store
comes back unchanged alongside the result; the result is the deserialized
batch, unless one of the unguarded `json.loads`/`.get` calls in the
archive or clear loop raises, in which case the exception propagates. -/
def get_batch_for_processing (db : QueueDB) (max_batch_size : Nat := 20) :
    QueueDB × Except String Batch :=
  (db,
   match mapExcept drainArchiveRow (selectType db "archive" max_batch_size) with
   | .error e => .error e
   | .ok archives =>
       match mapExcept drainClearRow (selectType db "clear_row" max_batch_size) with
       | .error e => .error e
       | .ok clears =>
           .ok { updates := (selectType db "cell_update" max_batch_size).map (fun r =>
                   { id := r.id, type := r.type, row_index := r.row_index,
                     column := r.column, value := r.value }),
                 archives := archives,
                 clears := clears })

/-- `mark_batch_completed`: one `DELETE ... WHERE id=?` per listed id; an
unknown id simply deletes nothing. -/
def mark_batch_completed (db : QueueDB) (completed_ids : List String) : QueueDB :=
  if completed_ids.isEmpty then db
  else { db with ops := db.ops.filter (fun op => ¬ op.id ∈ completed_ids) }

/-- One `UPDATE pending_ops SET retries = retries + 1, last_attempt = now
WHERE id=?` step of the `executemany` in `mark_batch_failed`. -/
def bumpRetry (ops : List PendingOp) (i : String) (now : Nat) : List PendingOp :=
  ops.map (fun op =>
    if op.id = i then { op with retries := op.retries + 1, last_attempt := some now }
    else op)

/-- `mark_batch_failed`: bump retries and stamp `last_attempt` for each
listed id, then `DELETE FROM pending_ops WHERE retries >= max_retries`
globally. -/
def mark_batch_failed (db : QueueDB) (failed_ids : List String)
    (max_retries : Nat := 3) : QueueDB :=
  if failed_ids.isEmpty then db
  else
    let now := db.clock
    let bumped := failed_ids.foldl (fun acc i => bumpRetry acc i now) db.ops
    { db with
      ops := bumped.filter (fun op => op.retries < max_retries),
      clock := db.clock + 1 }

/-- Python `a or b` on two optional strings: `None` and `""` are falsy. -/
def pyOrStr (a b : Option String) : Option String :=
  match a with
  | some s => if s = "" then b else some s
  | none => b

/-- Insert-or-update of an association list keyed by symbol, mirroring
`ON CONFLICT(symbol) DO UPDATE`. -/
def upsertAssoc : List (String × PosRow) → String → PosRow → List (String × PosRow)
  | [], s, r => [(s, r)]
  | (k, v) :: rest, s, r =>
      if k = s then (s, r) :: rest else (k, v) :: upsertAssoc rest s r

/-- `upsert_active_position`: the `setdefault` lines run, but the SQL
statement binds twelve named parameters including `:last_update` while the
dict passed to `execute` carries only eleven keys — `last_update` is
absent — so sqlite3 raises `ProgrammingError` on every call; the `with
self._conn` transaction rolls back and nothing is written. -/
def upsert_active_position (db : QueueDB) (symbol : String) (data : PosData) :
    Except String QueueDB :=
  .error "You did not supply a value for binding parameter :last_update."

/-- Modelled from the spec (4.2): the merged-row write that
`upsert_active_position` is documented to perform — merge the defaults
(`status=""`, `archived=false`, `last_update=now`) with the caller's
fields, `buy_order_id` drawn from `order_id or buy_order_id`, and replace
the row for `symbol`. Kept, clearly spec-derived, for comparison with the
raising source behavior. -/
def upsert_active_position_spec (db : QueueDB) (symbol : String) (data : PosData) :
    QueueDB :=
  let status := data.status.getD ""
  let archived := data.archived.getD false
  let last_update := data.last_update.getD db.clock
  let row : PosRow :=
    { buy_order_id := pyOrStr data.order_id data.buy_order_id,
      tp_order_id := data.tp_order_id,
      sl_order_id := data.sl_order_id,
      quantity := data.quantity,
      status := some status,
      last_update := some last_update,
      price := data.price,
      row_index := data.row_index,
      take_profit := data.take_profit,
      stop_loss := data.stop_loss,
      archived := archived }
  { db with positions := upsertAssoc db.positions symbol row, clock := db.clock + 1 }

/-- `get_all_active_positions` as a per-symbol lookup into the snapshot. -/
def findPosition (db : QueueDB) (symbol : String) : Option PosRow :=
  (db.positions.find? (fun p => p.1 == symbol)).map Prod.snd

/-! ### Derived notions used by the stated properties -/

/-- Two rows do not both archive the same `row_index`. -/
def ArchRel : PendingOp → PendingOp → Prop := fun a b =>
  ¬ (a.type = "archive" ∧ b.type = "archive" ∧ a.row_index = b.row_index)

instance : DecidableRel ArchRel := fun a b => by
  unfold ArchRel; infer_instance

/-- The per-row uniqueness invariant of `archive` operations: no two rows of
the store are both `archive` rows targeting the same `row_index`. -/
def AtMostOneArchive (db : QueueDB) : Prop :=
  db.ops.Pairwise ArchRel

instance : DecidablePred AtMostOneArchive := fun db => by
  unfold AtMostOneArchive; infer_instance

/-- One producer call into the pending-operations API. -/
inductive EnqueueCall where
  | cell (row_index : Int) (column : String) (value : Val)
      (update_type : String) (op_id : Option String)
  | archive (row_index : Int) (row_data : List (String × String))
      (columns_to_clear : Option (List String)) (op_id : Option String)
  | clear (row_index : Int) (columns : List String) (op_id : Option String)

/-- Run one enqueue call against the store. -/
def runEnqueue (db : QueueDB) : EnqueueCall → Except String QueueDB
  | .cell r c v t i => .ok (add_cell_update db r c v t i)
  | .archive r rd cc i => add_archive_operation db r rd cc i
  | .clear r cols i => add_clear_operations db r cols i

/-- Run a sequence of enqueue calls, stopping at the first storage error. -/
def runEnqueues : QueueDB → List EnqueueCall → Except String QueueDB
  | db, [] => .ok db
  | db, c :: cs =>
      match runEnqueue db c with
      | .ok db' => runEnqueues db' cs
      | .error e => .error e

/-- The call does not smuggle an `archive`-typed row in through the generic
kind parameter of `add_cell_update`. -/
def SafeCall : EnqueueCall → Prop
  | .cell _ _ _ t _ => t ≠ "archive"
  | .archive _ _ _ _ => True
  | .clear _ _ _ => True

/-- All ids handed out by one drained batch. -/
def batchIds (b : Batch) : List String :=
  b.updates.map UpdateRow.id ++ b.archives.map ArchiveRow.id ++
    b.clears.map ClearRowOut.id

/-- The cumulative effect on one row of the whole `executemany` loop of
`mark_batch_failed`: the retry counter grows by the number of times the
row's id is listed, and `last_attempt` is stamped when it is listed at
all. -/
def bumpBy (ids : List String) (now : Nat) (op : PendingOp) : PendingOp :=
  if 0 < ids.count op.id then
    { op with retries := op.retries + ids.count op.id, last_attempt := some now }
  else op

/-! ### General lemmas -/

lemma length_filter_split (l : List PendingOp) (p : PendingOp → Bool)
    (ids : List String) :
    (l.filter p).length
      = ((l.filter (fun op => ¬ op.id ∈ ids)).filter p).length
        + (l.filter (fun op => p op && op.id ∈ ids)).length := by
  induction l with
  | nil => rfl
  | cons a t ih =>
      by_cases hp : p a <;> by_cases hm : a.id ∈ ids <;>
        simp [List.filter_cons, hp, hm, ih] <;> omega

lemma pairwise_append_single {l : List PendingOp} {x : PendingOp}
    (hl : l.Pairwise ArchRel) (hx : ∀ a ∈ l, ArchRel a x) :
    (l ++ [x]).Pairwise ArchRel := by
  rw [List.pairwise_append]
  refine ⟨hl, List.pairwise_singleton _ _, ?_⟩
  intro a ha b hb
  rw [List.mem_singleton] at hb
  subst hb
  exact hx a ha

lemma atMostOne_add_cell_update (db : QueueDB) (r : Int) (c t : String)
    (v : Val) (i : Option String) (hinv : AtMostOneArchive db)
    (ht : t ≠ "archive") :
    AtMostOneArchive (add_cell_update db r c v t i) := by
  unfold AtMostOneArchive add_cell_update
  apply pairwise_append_single
  · exact hinv.sublist (List.filter_sublist db.ops)
  · intro a _ hcon
    exact ht hcon.2.1

lemma atMostOne_add_archive_operation (db db' : QueueDB) (r : Int)
    (rd : List (String × String)) (cc : Option (List String)) (i : Option String)
    (hinv : AtMostOneArchive db)
    (h : add_archive_operation db r rd cc i = .ok db') :
    AtMostOneArchive db' := by
  unfold add_archive_operation at h
  dsimp only at h
  split at h
  · injection h with h
    exact h ▸ hinv
  · rename_i hne
    split at h
    · cases h
    · injection h with h
      subst h
      apply pairwise_append_single hinv
      intro a ha hcon
      exact hne ⟨a, ha, hcon.1, hcon.2.2⟩

lemma atMostOne_add_clear_operations (db db' : QueueDB) (r : Int)
    (cols : List String) (i : Option String) (hinv : AtMostOneArchive db)
    (h : add_clear_operations db r cols i = .ok db') :
    AtMostOneArchive db' := by
  unfold add_clear_operations at h
  dsimp only at h
  split at h
  · cases h
  · injection h with h
    subst h
    apply pairwise_append_single hinv
    intro a _ hcon
    have h2 : ("clear_row" : String) = "archive" := hcon.2.1
    exact absurd h2 (by decide)

lemma atMostOne_runEnqueues (cs : List EnqueueCall) :
    ∀ db db' : QueueDB, AtMostOneArchive db → (∀ c ∈ cs, SafeCall c) →
      runEnqueues db cs = .ok db' → AtMostOneArchive db' := by
  induction cs with
  | nil =>
      intro db db' hinv _ hrun
      injection hrun with h
      exact h ▸ hinv
  | cons c cs ih =>
      intro db db' hinv hsafe hrun
      unfold runEnqueues at hrun
      cases hc : runEnqueue db c with
      | error e => rw [hc] at hrun; cases hrun
      | ok db1 =>
          rw [hc] at hrun
          refine ih db1 db' ?_ (fun x hx => hsafe x (List.mem_cons_of_mem _ hx)) hrun
          have hs := hsafe c (List.mem_cons_self c cs)
          cases c with
          | cell r col v t oi =>
              injection hc with hc
              exact hc ▸ atMostOne_add_cell_update db r col t v oi hinv hs
          | archive r rd cc oi =>
              exact atMostOne_add_archive_operation db db1 r rd cc oi hinv hc
          | clear r cols oi =>
              exact atMostOne_add_clear_operations db db1 r cols oi hinv hc

/-! ### Claims -/

/-- C5: `get_batch_for_processing` is read-only: for every store state and
batch size, the store comes back unchanged (no row removed, no `retries` or
`last_attempt` modified, pending counts unchanged), and a second drain
before any completion or failure returns the same batch again. -/
theorem claim5_drain_read_only (db : QueueDB) (k : Nat) :
    (get_batch_for_processing db k).1 = db ∧
    get_pending_count (get_batch_for_processing db k).1 = get_pending_count db ∧
    (get_batch_for_processing (get_batch_for_processing db k).1 k).2
      = (get_batch_for_processing db k).2 :=
  ⟨rfl, rfl, rfl⟩

/-- C7: `mark_batch_completed` deletes exactly the rows whose ids are
listed and no others (an unknown id deletes nothing and raises nothing),
so each per-kind pending count drops by exactly the number of deleted rows
of that kind — in particular it returns to its pre-enqueue value after the
enqueued rows are drained and their ids completed. -/
theorem claim7_complete_deletes_exactly (db : QueueDB) (ids : List String) :
    (mark_batch_completed db ids).ops = db.ops.filter (fun op => ¬ op.id ∈ ids) ∧
    (get_pending_count db).updates
      = (get_pending_count (mark_batch_completed db ids)).updates
        + (db.ops.filter (fun op => op.type == "cell_update" && op.id ∈ ids)).length ∧
    (get_pending_count db).archives
      = (get_pending_count (mark_batch_completed db ids)).archives
        + (db.ops.filter (fun op => op.type == "archive" && op.id ∈ ids)).length ∧
    (get_pending_count db).clears
      = (get_pending_count (mark_batch_completed db ids)).clears
        + (db.ops.filter (fun op => op.type == "clear_row" && op.id ∈ ids)).length := by
  have hops : (mark_batch_completed db ids).ops
      = db.ops.filter (fun op => ¬ op.id ∈ ids) := by
    by_cases h : ids.isEmpty
    · have : ids = [] := List.isEmpty_iff.mp h
      subst this
      simp [mark_batch_completed]
    · simp [mark_batch_completed, h]
  refine ⟨hops, ?_, ?_, ?_⟩ <;>
    simp only [get_pending_count, hops] <;>
    exact length_filter_split db.ops _ ids

/-- C1 (counterexample): the per-`row_index` archive uniqueness does not
survive every sequence of enqueue operations — `add_cell_update` with its
kind parameter set to `"archive"` inserts a second `archive` row for the
same `row_index` with no dedup check, so the store ends with two pending
`Archive` rows for row 5. -/
theorem claim1_counterexample :
    ¬ AtMostOneArchive
        (add_cell_update
          (add_cell_update { ops := [], positions := [], clock := 0 }
            5 "c" (Val.raw "v") "archive" none)
          5 "c" (Val.raw "v") "archive" none) := by
  decide

/-- C1 (amended): for sequences of enqueue operations in which `archive`
rows enter only through `add_archive_operation` (no `add_cell_update` call
with kind `"archive"`), at most one `Archive` operation exists per
`row_index`; a second `add_archive_operation` for a row that already has
one returns without enqueueing and without error, and starting from a row
with no pending archive, two consecutive `add_archive_operation` calls for
it leave exactly one `Archive` row pending. -/
theorem claim1_archive_unique_amended (db db' : QueueDB) (cs : List EnqueueCall)
    (hinv : AtMostOneArchive db) (hsafe : ∀ c ∈ cs, SafeCall c)
    (hrun : runEnqueues db cs = .ok db') :
    AtMostOneArchive db' ∧
    (∀ (r : Int) rd cc i, (∃ op ∈ db'.ops, op.type = "archive" ∧ op.row_index = r) →
        add_archive_operation db' r rd cc i = .ok db') ∧
    (∀ (r : Int) rd cc i db1,
        ¬ (∃ op ∈ db'.ops, op.type = "archive" ∧ op.row_index = r) →
        add_archive_operation db' r rd cc i = .ok db1 →
        (db1.ops.filter (fun op => op.type == "archive" && op.row_index == r)).length = 1 ∧
        (∀ rd2 cc2 i2, add_archive_operation db1 r rd2 cc2 i2 = .ok db1)) := by
  refine ⟨atMostOne_runEnqueues cs db db' hinv hsafe hrun, ?_, ?_⟩
  · intro r rd cc i hex
    unfold add_archive_operation
    rw [if_pos hex]
  · intro r rd cc i db1 hne h
    unfold add_archive_operation at h
    dsimp only at h
    rw [if_neg hne] at h
    split at h
    · cases h
    · injection h with h
      subst h
      constructor
      · rw [List.filter_append]
        have hnil : db'.ops.filter
            (fun op => op.type == "archive" && op.row_index == r) = [] := by
          rw [List.filter_eq_nil_iff]
          intro a ha hcon
          simp only [Bool.and_eq_true, beq_iff_eq] at hcon
          exact hne ⟨a, ha, hcon.1, hcon.2⟩
        rw [hnil]
        simp
      · intro rd2 cc2 i2
        unfold add_archive_operation
        rw [if_pos]
        exact ⟨_, List.mem_append_right _ (List.mem_singleton_self _), rfl, rfl⟩

/-- C1 (witness): concrete run of the amended theorem — starting from the
empty store, enqueue one cell update (kind `"cell_update"`), then archive
row 5 twice: the invariant holds throughout, the second archive call is a
silent no-op, and exactly one archive row for row 5 is pending. -/
theorem claim1_witness :
    AtMostOneArchive
      { ops := [], positions := [], clock := 0 } ∧
    (match runEnqueues { ops := [], positions := [], clock := 0 }
        [.cell 2 "Order Placed?" (Val.raw "ORDER_PLACED") "cell_update" none] with
      | .ok db' => AtMostOneArchive db'
      | .error _ => False) := by
  constructor
  · decide
  · have h := claim1_archive_unique_amended
      { ops := [], positions := [], clock := 0 }
      (add_cell_update { ops := [], positions := [], clock := 0 }
        2 "Order Placed?" (Val.raw "ORDER_PLACED") "cell_update" none)
      [.cell 2 "Order Placed?" (Val.raw "ORDER_PLACED") "cell_update" none]
      (by decide) (by intro c hc; cases hc with
        | head => exact (by decide : ("cell_update" : String) ≠ "archive")
        | tail _ h2 => cases h2)
      (by rfl)
    exact h.1

lemma add_cell_update_some_id (db : QueueDB) (r : Int) (c t s : String)
    (v : Val) (hs : s ≠ "") :
    (add_cell_update db r c v t (some s)).ops
      = db.ops.filter (fun op => op.id ≠ s) ++
        [{ id := s, type := t, row_index := r, column := c, value := v,
           retries := 0, created_at := db.clock, last_attempt := none }] ∧
    (add_cell_update db r c v t (some s)).clock = db.clock + 1 := by
  unfold add_cell_update orGenId
  simp [hs]

lemma add_clear_operations_ok (db db' : QueueDB) (r : Int)
    (cols : List String) (i : Option String)
    (h : add_clear_operations db r cols i = .ok db') :
    db'.ops = db.ops ++
      [{ id := orGenId db i, type := "clear_row", row_index := r,
         column := "columns", value := Val.jsonClear cols, retries := 0,
         created_at := db.clock, last_attempt := none }] := by
  unfold add_clear_operations at h
  dsimp only at h
  split at h
  · cases h
  · injection h with h
    subst h
    rfl

lemma add_cell_update_fresh_id (db : QueueDB) (r : Int) (c t s : String)
    (v : Val) (hs : s ≠ "") (hfresh : ∀ op ∈ db.ops, op.id ≠ s) :
    (add_cell_update db r c v t (some s)).ops
      = db.ops ++
        [{ id := s, type := t, row_index := r, column := c, value := v,
           retries := 0, created_at := db.clock, last_attempt := none }] ∧
    (add_cell_update db r c v t (some s)).clock = db.clock + 1 := by
  refine ⟨?_, (add_cell_update_some_id db r c t s v hs).2⟩
  rw [(add_cell_update_some_id db r c t s v hs).1, List.filter_eq_self.mpr]
  intro a ha
  simpa using hfresh a ha

/-- C4 (counterexample): for `ClearRow` enqueues, reusing the same id does
not overwrite in place — the second `add_clear_operations` call with an
already-used id raises a uniqueness error instead of replacing the earlier
row. -/
theorem claim4_counterexample :
    (match add_clear_operations { ops := [], positions := [], clock := 0 }
        3 ["A"] (some "x") with
      | .ok db1 => add_clear_operations db1 3 ["B"] (some "x")
      | .error e => .error e)
      = .error "UNIQUE constraint failed: pending_ops.id" := by
  rfl

/-- C4 (amended): duplicates for the same row are legal and persist
independently for both `CellUpdate` and `ClearRow` when ids differ.  On id
reuse the behaviours split: a repeated `add_cell_update` with the same
explicit id overwrites the earlier operation in place, leaving one row with
the later payload and no error, while a repeated `add_clear_operations`
with an already-used id raises a uniqueness error and leaves the store
unchanged. -/
theorem claim4_dup_ids_amended (db db1 db2 : QueueDB) (s : String) (hs : s ≠ "")
    (r r2 r3 r4 : Int) (c c2 t t2 : String) (v v2 : Val)
    (cols1 cols2 cols3 : List String) (s1 s2 : Option String) :
    ((add_cell_update (add_cell_update db r c v t (some s)) r2 c2 v2 t2
        (some s)).ops.filter (fun op => op.id == s)
      = [{ id := s, type := t2, row_index := r2, column := c2,
           value := v2, retries := 0, created_at := db.clock + 1,
           last_attempt := none }]) ∧
    (∀ s3 s4 : String, s3 ≠ "" → s4 ≠ "" → s3 ≠ s4 →
      (∀ op ∈ db.ops, op.id ≠ s3) → (∀ op ∈ db.ops, op.id ≠ s4) →
      (get_pending_count
          (add_cell_update (add_cell_update db r c v "cell_update" (some s3))
            r c v "cell_update" (some s4))).updates
        = (get_pending_count db).updates + 2) ∧
    (add_clear_operations db r3 cols1 s1 = .ok db1 →
      add_clear_operations db1 r3 cols2 s2 = .ok db2 →
      (get_pending_count db2).clears = (get_pending_count db).clears + 2) ∧
    (add_clear_operations db r3 cols1 (some s) = .ok db1 →
      add_clear_operations db1 r4 cols3 (some s)
        = .error "UNIQUE constraint failed: pending_ops.id") := by
  refine ⟨?_, ?_, ?_, ?_⟩
  · have h1 := add_cell_update_some_id db r c t s v hs
    have h2 := add_cell_update_some_id (add_cell_update db r c v t (some s))
      r2 c2 t2 s v2 hs
    rw [h2.1, h1.2, List.filter_append]
    have hnil : ((add_cell_update db r c v t (some s)).ops.filter
        (fun op => op.id ≠ s)).filter (fun op => op.id == s) = [] := by
      rw [List.filter_eq_nil_iff]
      intro a ha hcon
      have := List.of_mem_filter ha
      simp only [ne_eq, decide_not, Bool.not_eq_true', decide_eq_false_iff_not] at this
      exact this (by simpa using hcon)
    rw [hnil]
    simp
  · intro s3 s4 hs3 hs4 hne hf3 hf4
    have e1 := add_cell_update_fresh_id db r c "cell_update" s3 v hs3 hf3
    have e2 := add_cell_update_fresh_id
      (add_cell_update db r c v "cell_update" (some s3)) r c "cell_update" s4 v hs4 (by
        intro a ha
        rw [e1.1] at ha
        rcases List.mem_append.mp ha with hm | hm
        · exact hf4 a hm
        · rw [List.mem_singleton] at hm
          subst hm
          simpa using hne)
    simp [get_pending_count, e2.1, e1.1, List.filter_append]
  · intro h1 h2
    have e1 := add_clear_operations_ok db db1 r3 cols1 s1 h1
    have e2 := add_clear_operations_ok db1 db2 r3 cols2 s2 h2
    simp [get_pending_count, e2, e1, List.filter_append]
  · intro h1
    have e1 := add_clear_operations_ok db db1 r3 cols1 (some s) h1
    have hid : orGenId db (some s) = s := by simp [orGenId, hs]
    unfold add_clear_operations
    dsimp only
    rw [if_pos]
    refine ⟨({ id := orGenId db (some s), type := "clear_row", row_index := r3,
               column := "columns", value := Val.jsonClear cols1, retries := 0,
               created_at := db.clock, last_attempt := none } : PendingOp), ?_, ?_⟩
    · rw [e1]
      exact List.mem_append_right _ (List.mem_singleton_self _)
    · simp [orGenId, hs, hid]

/-- Store holding one pending clear for row 4, as left by
`add_clear_operations` with explicit id `"x"` on the empty store. -/
def db1c : QueueDB :=
  { ops := [{ id := "x", type := "clear_row", row_index := 4, column := "columns",
              value := Val.jsonClear ["A"], retries := 0, created_at := 0,
              last_attempt := none }],
    positions := [], clock := 1 }

/-- `db1c` after a second pending clear for row 4 under the distinct id
`"b"`. -/
def db2c : QueueDB :=
  { ops := [{ id := "x", type := "clear_row", row_index := 4, column := "columns",
              value := Val.jsonClear ["A"], retries := 0, created_at := 0,
              last_attempt := none },
            { id := "b", type := "clear_row", row_index := 4, column := "columns",
              value := Val.jsonClear ["B"], retries := 0, created_at := 1,
              last_attempt := none }],
    positions := [], clock := 2 }

/-- C4 (witness): the amended theorem at a concrete input — id `"x"` reused
across two cell updates leaves one row with the later payload; the same
cell update under distinct ids `"x"`/`"y"` leaves two pending rows; two
clears for row 4 under distinct ids both persist; reusing id `"x"` for a
clear errors. -/
theorem claim4_witness :
    ((add_cell_update (add_cell_update { ops := [], positions := [], clock := 0 }
        7 "colA" (Val.raw "v1") "cell_update" (some "x")) 8 "colB" (Val.raw "v2")
        "cell_update" (some "x")).ops.filter (fun op => op.id == "x")
      = [{ id := "x", type := "cell_update", row_index := 8, column := "colB",
           value := Val.raw "v2", retries := 0, created_at := 0 + 1,
           last_attempt := none }]) ∧
    ((get_pending_count
        (add_cell_update (add_cell_update { ops := [], positions := [], clock := 0 }
          7 "colA" (Val.raw "v1") "cell_update" (some "x")) 7 "colA" (Val.raw "v1")
          "cell_update" (some "y"))).updates
      = (get_pending_count { ops := [], positions := [], clock := 0 }).updates + 2) ∧
    ((get_pending_count db2c).clears
      = (get_pending_count { ops := [], positions := [], clock := 0 }).clears + 2) ∧
    (add_clear_operations db1c 4 ["C"] (some "x")
      = .error "UNIQUE constraint failed: pending_ops.id") := by
  have h := claim4_dup_ids_amended { ops := [], positions := [], clock := 0 }
    db1c db2c "x" (by decide) 7 8 4 4 "colA" "colB"
    "cell_update" "cell_update" (Val.raw "v1") (Val.raw "v2")
    ["A"] ["B"] ["C"] (some "x") (some "b")
  exact ⟨h.1, h.2.1 "x" "y" (by decide) (by decide) (by decide) (by decide) (by decide),
    h.2.2.1 rfl rfl, h.2.2.2 rfl⟩

lemma find?_upsertAssoc_self (l : List (String × PosRow)) (s : String) (r : PosRow) :
    (upsertAssoc l s r).find? (fun p => p.1 == s) = some (s, r) := by
  induction l with
  | nil => simp [upsertAssoc]
  | cons kv rest ih =>
      obtain ⟨k, v⟩ := kv
      by_cases h : k = s
      · simp [upsertAssoc, h]
      · simp only [upsertAssoc, if_neg h]
        rw [List.find?_cons_of_neg, ih]
        simpa using h

lemma find?_upsertAssoc_other (l : List (String × PosRow)) (s s' : String)
    (r : PosRow) (h : s' ≠ s) :
    (upsertAssoc l s r).find? (fun p => p.1 == s')
      = l.find? (fun p => p.1 == s') := by
  induction l with
  | nil =>
      rw [upsertAssoc, List.find?_cons_of_neg _ (by simpa using fun h2 => h h2.symm),
        List.find?_nil]
  | cons kv rest ih =>
      obtain ⟨k, v⟩ := kv
      rw [upsertAssoc]
      by_cases hk : k = s
      · rw [if_pos hk,
          List.find?_cons_of_neg _ (by simpa using fun h2 => h h2.symm),
          List.find?_cons_of_neg _ (by simpa [hk] using fun h2 => h h2.symm)]
      · rw [if_neg hk]
        by_cases hk' : k = s'
        · rw [List.find?_cons_of_pos _ (by simp [hk']),
            List.find?_cons_of_pos _ (by simp [hk'])]
        · rw [List.find?_cons_of_neg _ (by simpa using hk'),
            List.find?_cons_of_neg _ (by simpa using hk'), ih]

/-- C2 (code bug): every call to `upsert_active_position` raises — the SQL
statement binds `:last_update` but the params dict passed to `execute`
lacks the key, so sqlite3 reports the missing binding and the transaction
rolls back — while the spec-described merged-row write, performed by
`upsert_active_position_spec`, stores the row for the symbol with the
defaults merged in.  The write the claim describes therefore never
happens in the source. -/
theorem claim2_upsert_binding_bug (db : QueueDB) (symbol : String) (data : PosData) :
    upsert_active_position db symbol data
      = .error "You did not supply a value for binding parameter :last_update." ∧
    findPosition (upsert_active_position_spec db symbol data) symbol
      = some { buy_order_id := pyOrStr data.order_id data.buy_order_id,
               tp_order_id := data.tp_order_id,
               sl_order_id := data.sl_order_id,
               quantity := data.quantity,
               status := some (data.status.getD ""),
               last_update := some (data.last_update.getD db.clock),
               price := data.price,
               row_index := data.row_index,
               take_profit := data.take_profit,
               stop_loss := data.stop_loss,
               archived := data.archived.getD false } := by
  refine ⟨rfl, ?_⟩
  unfold findPosition upsert_active_position_spec
  dsimp only
  rw [find?_upsertAssoc_self]
  rfl

lemma bumpBy_after_single (i : String) (ids : List String) (now : Nat)
    (op : PendingOp) :
    bumpBy ids now
      (if op.id = i then
        { op with retries := op.retries + 1, last_attempt := some now }
       else op)
      = bumpBy (i :: ids) now op := by
  cases op with
  | mk oid otype orow ocol oval oret ocreated olast =>
      by_cases h : oid = i
      · subst h
        by_cases hc : 0 < ids.count oid
        · simp [bumpBy, List.count_cons, hc, Nat.lt_add_right 1 hc]
          omega
        · have hc0 : ids.count oid = 0 := Nat.eq_zero_of_not_pos hc
          simp [bumpBy, List.count_cons, hc0]
      · have hcc : (i :: ids).count oid = ids.count oid := by
          rw [List.count_cons]
          simp [h, Ne.symm h]
        simp only [if_neg h, bumpBy, hcc]

lemma foldl_bumpRetry (ids : List String) (now : Nat) :
    ∀ ops : List PendingOp,
      ids.foldl (fun acc i => bumpRetry acc i now) ops = ops.map (bumpBy ids now) := by
  induction ids with
  | nil =>
      intro ops
      have hb : ∀ op : PendingOp, bumpBy [] now op = op := by
        intro op; simp [bumpBy]
      symm
      calc List.map (bumpBy [] now) ops
          = List.map id ops := List.map_congr_left fun op _ => hb op
        _ = ops := List.map_id ops
  | cons i ids ih =>
      intro ops
      rw [List.foldl_cons]
      have hb : bumpRetry ops i now = ops.map (fun op =>
          if op.id = i then
            { op with retries := op.retries + 1, last_attempt := some now }
          else op) := rfl
      rw [hb, ih, List.map_map]
      refine List.map_congr_left ?_
      intro op _
      exact bumpBy_after_single i ids now op

lemma mark_batch_failed_ops (db : QueueDB) (ids : List String) (m : Nat)
    (h : ids ≠ []) :
    (mark_batch_failed db ids m).ops
      = (db.ops.map (bumpBy ids db.clock)).filter (fun op => op.retries < m) := by
  unfold mark_batch_failed
  rw [if_neg (by simpa using h)]
  dsimp only
  rw [foldl_bumpRetry]

lemma mark_batch_failed_retries_lt (db : QueueDB) (ids : List String) (m : Nat)
    (h : ids ≠ []) :
    ∀ op ∈ (mark_batch_failed db ids m).ops, op.retries < m := by
  intro op hop
  rw [mark_batch_failed_ops db ids m h] at hop
  have := List.of_mem_filter hop
  simpa using this

lemma selectType_subset (db : QueueDB) (t : String) (k : Nat) :
    ∀ r ∈ selectType db t k, r ∈ db.ops := by
  intro r hr
  unfold selectType at hr
  have h1 := List.mem_of_mem_take hr
  have h2 := (List.perm_insertionSort byCreated _).mem_iff.mp h1
  exact List.mem_of_mem_filter h2

lemma mapExcept_ok_mem {α β : Type} (f : α → Except String β) :
    ∀ (l : List α) (res : List β), mapExcept f l = .ok res →
      ∀ b ∈ res, ∃ a ∈ l, f a = .ok b := by
  intro l
  induction l with
  | nil =>
      intro res h b hb
      injection h with h
      subst h
      cases hb
  | cons a t ih =>
      intro res h b hb
      unfold mapExcept at h
      cases hfa : f a with
      | error e => rw [hfa] at h; cases h
      | ok b1 =>
          rw [hfa] at h
          cases hmt : mapExcept f t with
          | error e => rw [hmt] at h; cases h
          | ok rest =>
              rw [hmt] at h
              injection h with h
              subst h
              rcases List.mem_cons.mp hb with rfl | hb2
              · exact ⟨a, List.mem_cons_self a t, hfa⟩
              · obtain ⟨x, hx, hfx⟩ := ih rest hmt b hb2
                exact ⟨x, List.mem_cons_of_mem a hx, hfx⟩

lemma mapExcept_ok_of_forall {α β : Type} (f : α → Except String β) (g : α → β) :
    ∀ l : List α, (∀ a ∈ l, f a = .ok (g a)) → mapExcept f l = .ok (l.map g) := by
  intro l h
  induction l with
  | nil => rfl
  | cons a t ih =>
      have ha := h a (List.mem_cons_self a t)
      have ht := ih (fun x hx => h x (List.mem_cons_of_mem a hx))
      simp [mapExcept, ha, ht]

lemma drainArchiveRow_id {r : PendingOp} {b : ArchiveRow}
    (h : drainArchiveRow r = .ok b) : b.id = r.id := by
  unfold drainArchiveRow at h
  cases hp : parseArchivePayload r.value with
  | error e => rw [hp] at h; cases h
  | ok payload =>
      rw [hp] at h
      injection h with h
      subst h
      rfl

lemma drainClearRow_id {r : PendingOp} {b : ClearRowOut}
    (h : drainClearRow r = .ok b) : b.id = r.id := by
  unfold drainClearRow at h
  cases hp : parseClearPayload r.value with
  | error e => rw [hp] at h; cases h
  | ok cols =>
      rw [hp] at h
      injection h with h
      subst h
      rfl

lemma get_batch_ok_elim (db : QueueDB) (k : Nat) (b : Batch)
    (hb : (get_batch_for_processing db k).2 = .ok b) :
    b.updates = (selectType db "cell_update" k).map (fun r =>
        { id := r.id, type := r.type, row_index := r.row_index,
          column := r.column, value := r.value }) ∧
    mapExcept drainArchiveRow (selectType db "archive" k) = .ok b.archives ∧
    mapExcept drainClearRow (selectType db "clear_row" k) = .ok b.clears := by
  unfold get_batch_for_processing at hb
  dsimp only at hb
  cases ha : mapExcept drainArchiveRow (selectType db "archive" k) with
  | error e => rw [ha] at hb; cases hb
  | ok archives =>
      rw [ha] at hb
      cases hc : mapExcept drainClearRow (selectType db "clear_row" k) with
      | error e => rw [hc] at hb; cases hb
      | ok clears =>
          rw [hc] at hb
          injection hb with hb
          subst hb
          exact ⟨rfl, rfl, rfl⟩

lemma batchIds_sub (db : QueueDB) (k : Nat) (b : Batch)
    (hb : (get_batch_for_processing db k).2 = .ok b) :
    ∀ i ∈ batchIds b, ∃ op ∈ db.ops, op.id = i := by
  obtain ⟨hu, ha, hc⟩ := get_batch_ok_elim db k b hb
  intro i hi
  unfold batchIds at hi
  rcases List.mem_append.mp hi with hi12 | hi3
  · rcases List.mem_append.mp hi12 with hi1 | hi2
    · rw [hu, List.map_map] at hi1
      obtain ⟨u, hu2, rfl⟩ := List.mem_map.mp hi1
      exact ⟨u, selectType_subset db _ k u hu2, rfl⟩
    · obtain ⟨arow, harow, rfl⟩ := List.mem_map.mp hi2
      obtain ⟨r, hr, hfr⟩ := mapExcept_ok_mem drainArchiveRow _ _ ha arow harow
      exact ⟨r, selectType_subset db _ k r hr, (drainArchiveRow_id hfr).symm⟩
  · obtain ⟨crow, hcrow, rfl⟩ := List.mem_map.mp hi3
    obtain ⟨r, hr, hfr⟩ := mapExcept_ok_mem drainClearRow _ _ hc crow hcrow
    exact ⟨r, selectType_subset db _ k r hr, (drainClearRow_id hfr).symm⟩

/-- C3: for every non-empty list of ids, `mark_batch_failed` increments the
retry counter once per listing and stamps `last_attempt` for each listed
id, then deletes every pending operation of any kind whose retries reached
`max_retries` — globally, not only among the ids just failed — so such an
operation is absent from the store and from any subsequent drain. -/
theorem claim3_fail_increments_and_evicts (db : QueueDB) (ids : List String)
    (m k : Nat) (h : ids ≠ []) :
    (mark_batch_failed db ids m).ops
      = (db.ops.map (bumpBy ids db.clock)).filter (fun op => op.retries < m) ∧
    (∀ op ∈ db.ops, op.id ∈ ids → op.retries + ids.count op.id < m →
      ({ op with retries := op.retries + ids.count op.id,
                 last_attempt := some db.clock } : PendingOp)
        ∈ (mark_batch_failed db ids m).ops) ∧
    (∀ op ∈ (mark_batch_failed db ids m).ops, op.retries < m) ∧
    (∀ b, (get_batch_for_processing (mark_batch_failed db ids m) k).2 = .ok b →
      ∀ i ∈ batchIds b, ∃ op ∈ (mark_batch_failed db ids m).ops, op.id = i) := by
  refine ⟨mark_batch_failed_ops db ids m h, ?_, mark_batch_failed_retries_lt db ids m h,
    fun b hb => batchIds_sub (mark_batch_failed db ids m) k b hb⟩
  intro op hop hid hlt
  rw [mark_batch_failed_ops db ids m h]
  refine List.mem_filter.mpr ⟨?_, by simpa using hlt⟩
  refine List.mem_map.mpr ⟨op, hop, ?_⟩
  unfold bumpBy
  rw [if_pos (List.count_pos_iff.mpr hid)]

/-- C3 (witness): concrete run — one pending update with id `"u"` fails
once with `max_retries = 2`: its retries become 1 and it survives; failing
with the bumped store again pushes retries to 2 and the row is evicted,
leaving the store and a subsequent drain empty. -/
theorem claim3_witness :
    (({ id := "u", type := "cell_update", row_index := 2, column := "c",
        value := Val.raw "v", retries := 0 + 1, created_at := 0,
        last_attempt := some 7 } : PendingOp)
      ∈ (mark_batch_failed
          { ops := [{ id := "u", type := "cell_update", row_index := 2,
                      column := "c", value := Val.raw "v", retries := 0,
                      created_at := 0, last_attempt := none }],
            positions := [], clock := 7 } ["u"] 2).ops) ∧
    (∀ op ∈ (mark_batch_failed
        { ops := [{ id := "u", type := "cell_update", row_index := 2,
                    column := "c", value := Val.raw "v", retries := 1,
                    created_at := 0, last_attempt := some 7 }],
          positions := [], clock := 8 } ["u"] 2).ops, op.retries < 2) := by
  have h1 := claim3_fail_increments_and_evicts
    { ops := [{ id := "u", type := "cell_update", row_index := 2,
                column := "c", value := Val.raw "v", retries := 0,
                created_at := 0, last_attempt := none }],
      positions := [], clock := 7 } ["u"] 2 20 (by decide)
  have h2 := claim3_fail_increments_and_evicts
    { ops := [{ id := "u", type := "cell_update", row_index := 2,
                column := "c", value := Val.raw "v", retries := 1,
                created_at := 0, last_attempt := some 7 }],
      positions := [], clock := 8 } ["u"] 2 20 (by decide)
  refine ⟨?_, h2.2.2.1⟩
  have := h1.2.1 { id := "u", type := "cell_update", row_index := 2,
                   column := "c", value := Val.raw "v", retries := 0,
                   created_at := 0, last_attempt := none }
    (by decide) (by decide) (by decide)
  simpa using this

/-- A store whose rows sit in creation-time order, as every reachable store
does: each insert stamps `created_at` with the strictly growing clock. -/
def InsertionOrdered (db : QueueDB) : Prop :=
  db.ops.Pairwise byCreated

instance : DecidablePred InsertionOrdered := fun db => by
  unfold InsertionOrdered; infer_instance

/-- The payload shape `add_archive_operation` always stores. -/
def IsArchiveShape : Val → Prop
  | .jsonArchive _ _ => True
  | _ => False

/-- The payload shape `add_clear_operations` always stores. -/
def IsClearShape : Val → Prop
  | .jsonClear _ => True
  | _ => False

instance : DecidablePred IsArchiveShape := fun v =>
  match v with
  | .jsonArchive _ _ => .isTrue trivial
  | .raw _ => .isFalse fun h => h
  | .jsonClear _ => .isFalse fun h => h
  | .jsonObj _ _ _ => .isFalse fun h => h
  | .jsonNonObj _ => .isFalse fun h => h
  | .emptyText => .isFalse fun h => h

instance : DecidablePred IsClearShape := fun v =>
  match v with
  | .jsonClear _ => .isTrue trivial
  | .raw _ => .isFalse fun h => h
  | .jsonArchive _ _ => .isFalse fun h => h
  | .jsonObj _ _ _ => .isFalse fun h => h
  | .jsonNonObj _ => .isFalse fun h => h
  | .emptyText => .isFalse fun h => h

/-- Statement-side projection of a well-shaped archive payload. -/
def archiveParts : Val → (List (String × String)) × List String
  | .jsonArchive rd cc => (rd, cc)
  | _ => ([], [])

/-- Statement-side projection of a well-shaped clear payload. -/
def clearParts : Val → List String
  | .jsonClear cols => cols
  | _ => []

/-- Every `archive` row carries an archive-shaped payload and every
`clear_row` row a clear-shaped one, as all rows enqueued through
`add_archive_operation`/`add_clear_operations` do. -/
def WellFormedPayloads (db : QueueDB) : Prop :=
  ∀ op ∈ db.ops,
    (op.type = "archive" → IsArchiveShape op.value) ∧
    (op.type = "clear_row" → IsClearShape op.value)

instance : DecidablePred WellFormedPayloads := fun db => by
  unfold WellFormedPayloads; infer_instance

lemma parseArchive_of_shape {v : Val} (h : IsArchiveShape v) :
    parseArchivePayload v = .ok (archiveParts v) := by
  cases v with
  | jsonArchive rd cc => rfl
  | raw s => exact h.elim
  | jsonClear c => exact h.elim
  | jsonObj a b c => exact h.elim
  | jsonNonObj s => exact h.elim
  | emptyText => exact h.elim

lemma parseClear_of_shape {v : Val} (h : IsClearShape v) :
    parseClearPayload v = .ok (clearParts v) := by
  cases v with
  | jsonClear c => rfl
  | raw s => exact h.elim
  | jsonArchive rd cc => exact h.elim
  | jsonObj a b c => exact h.elim
  | jsonNonObj s => exact h.elim
  | emptyText => exact h.elim

lemma selectType_type (db : QueueDB) (t : String) (k : Nat) :
    ∀ r ∈ selectType db t k, r.type = t := by
  intro r hr
  unfold selectType at hr
  have h1 := List.mem_of_mem_take hr
  have h2 := (List.perm_insertionSort byCreated _).mem_iff.mp h1
  simpa using List.of_mem_filter h2

lemma add_cell_update_none_fresh (db : QueueDB) (r : Int) (c : String) (v : Val)
    (hfresh : ∀ op ∈ db.ops, op.id ≠ gen_id db) :
    (add_cell_update db r c v).ops
      = db.ops ++
        [{ id := gen_id db, type := "cell_update", row_index := r, column := c,
           value := v, retries := 0, created_at := db.clock,
           last_attempt := none }] ∧
    (add_cell_update db r c v).clock = db.clock + 1 := by
  unfold add_cell_update orGenId
  dsimp only
  refine ⟨?_, rfl⟩
  rw [List.filter_eq_self.mpr]
  intro a ha
  simpa using hfresh a ha

lemma gen_id_inj (db db' : QueueDB) (h : gen_id db = gen_id db') :
    db.clock = db'.clock := by
  unfold gen_id at h
  have h2 : List.replicate db.clock '1' = List.replicate db'.clock '1' := by
    injection h
  simpa using congrArg List.length h2

/-- C8: enqueueing the same `(row_index, column, value)` cell update twice
without an explicit id yields two independent pending rows — the two
generator-assigned ids are distinct — and `pending_counts().updates` grows
by two, provided neither generated id already sits in the store (as the
timestamp generator guarantees for real stores). -/
theorem claim8_dup_updates_independent (db : QueueDB) (r : Int) (c : String)
    (v : Val) (h1 : ∀ op ∈ db.ops, op.id ≠ gen_id db)
    (h2 : ∀ op ∈ db.ops, op.id ≠ gen_id (add_cell_update db r c v)) :
    gen_id db ≠ gen_id (add_cell_update db r c v) ∧
    (get_pending_count (add_cell_update (add_cell_update db r c v) r c v)).updates
      = (get_pending_count db).updates + 2 := by
  have hne : gen_id db ≠ gen_id (add_cell_update db r c v) := by
    intro he
    have := gen_id_inj _ _ he
    simp [add_cell_update] at this
  refine ⟨hne, ?_⟩
  have e1 := add_cell_update_none_fresh db r c v h1
  have e2 := add_cell_update_none_fresh (add_cell_update db r c v) r c v (by
    intro a ha
    rw [e1.1] at ha
    rcases List.mem_append.mp ha with hmem | hmem
    · exact h2 a hmem
    · rw [List.mem_singleton] at hmem
      subst hmem
      simpa using hne)
  simp [get_pending_count, e2.1, e1.1, List.filter_append]

/-- C8 (witness): the theorem on the empty store — two anonymous enqueues
of the same update leave two pending rows under distinct generated ids. -/
theorem claim8_witness :
    gen_id { ops := [], positions := [], clock := 0 }
      ≠ gen_id (add_cell_update { ops := [], positions := [], clock := 0 }
          2 "col" (Val.raw "VAL")) ∧
    (get_pending_count
        (add_cell_update
          (add_cell_update { ops := [], positions := [], clock := 0 } 2 "col" (Val.raw "VAL"))
          2 "col" (Val.raw "VAL"))).updates
      = (get_pending_count { ops := [], positions := [], clock := 0 }).updates + 2 :=
  claim8_dup_updates_independent { ops := [], positions := [], clock := 0 }
    2 "col" (Val.raw "VAL") (by decide) (by decide)

lemma filter_erase_of_neg {p : PendingOp → Bool} {a : PendingOp}
    (l : List PendingOp) (h : p a = false) :
    (l.erase a).filter p = l.filter p := by
  induction l with
  | nil => rfl
  | cons b t ih =>
      rw [List.erase_cons]
      by_cases hb : b = a
      · subst hb
        rw [if_pos (by simp), List.filter_cons_of_neg (by simp [h])]
      · rw [if_neg (by simpa using hb)]
        by_cases hp : p b
        · rw [List.filter_cons_of_pos hp, List.filter_cons_of_pos hp, ih]
        · rw [List.filter_cons_of_neg (by simpa using hp),
            List.filter_cons_of_neg (by simpa using hp), ih]

lemma mark_batch_completed_ops (db : QueueDB) (ids : List String) :
    (mark_batch_completed db ids).ops
      = db.ops.filter (fun op => ¬ op.id ∈ ids) := by
  by_cases h : ids.isEmpty
  · have : ids = [] := List.isEmpty_iff.mp h
    subst this
    simp [mark_batch_completed]
  · simp [mark_batch_completed, h]

/-- C10: a pending operation whose stored kind is none of `cell_update`,
`archive`, `clear_row` (reachable through `add_cell_update`'s kind
parameter, as the legacy migration uses it) is invisible: removing it
changes neither `get_pending_count` nor any `get_batch_for_processing`
result, it survives any `mark_batch_completed` that does not name its id,
and only the global `mark_batch_failed` sweep evicts it once its retries
reach the maximum. -/
theorem claim10_unknown_kind_invisible (db : QueueDB) (op : PendingOp)
    (k m : Nat) (ids : List String)
    (hmem : op ∈ db.ops)
    (ht1 : op.type ≠ "cell_update") (ht2 : op.type ≠ "archive")
    (ht3 : op.type ≠ "clear_row") :
    get_pending_count { db with ops := db.ops.erase op } = get_pending_count db ∧
    (get_batch_for_processing { db with ops := db.ops.erase op } k).2
      = (get_batch_for_processing db k).2 ∧
    (op.id ∉ ids → op ∈ (mark_batch_completed db ids).ops) ∧
    (ids ≠ [] → ∀ op2 ∈ (mark_batch_failed db ids m).ops, op2.retries < m) := by
  refine ⟨?_, ?_, ?_, fun h => mark_batch_failed_retries_lt db ids m h⟩
  · simp only [get_pending_count]
    rw [filter_erase_of_neg _ (by simpa using ht1),
      filter_erase_of_neg _ (by simpa using ht2),
      filter_erase_of_neg _ (by simpa using ht3)]
  · simp only [get_batch_for_processing, selectType]
    rw [filter_erase_of_neg _ (by simpa using ht2),
      filter_erase_of_neg _ (by simpa using ht3),
      filter_erase_of_neg _ (by simpa using ht1)]
  · intro hid
    rw [mark_batch_completed_ops]
    exact List.mem_filter.mpr ⟨hmem, by simpa using hid⟩

/-- C10 (witness): a concrete store holding one row of the legacy kind
`"status_update"` — erasing it leaves counts and batch untouched, it
survives completion of other ids, and a fail sweep keeps only rows under
the retry bound. -/
theorem claim10_witness :
    get_pending_count
        { ops := ([{ id := "z", type := "status_update", row_index := 2,
                     column := "c", value := Val.raw "v", retries := 0,
                     created_at := 0, last_attempt := none }]
            : List PendingOp).erase
              { id := "z", type := "status_update", row_index := 2,
                column := "c", value := Val.raw "v", retries := 0,
                created_at := 0, last_attempt := none },
          positions := [], clock := 1 }
      = get_pending_count
          { ops := [{ id := "z", type := "status_update", row_index := 2,
                      column := "c", value := Val.raw "v", retries := 0,
                      created_at := 0, last_attempt := none }],
            positions := [], clock := 1 } ∧
    ({ id := "z", type := "status_update", row_index := 2, column := "c",
       value := Val.raw "v", retries := 0, created_at := 0,
       last_attempt := none } : PendingOp)
      ∈ (mark_batch_completed
          { ops := [{ id := "z", type := "status_update", row_index := 2,
                      column := "c", value := Val.raw "v", retries := 0,
                      created_at := 0, last_attempt := none }],
            positions := [], clock := 1 } ["other"]).ops := by
  have h := claim10_unknown_kind_invisible
    { ops := [{ id := "z", type := "status_update", row_index := 2,
                column := "c", value := Val.raw "v", retries := 0,
                created_at := 0, last_attempt := none }],
      positions := [], clock := 1 }
    { id := "z", type := "status_update", row_index := 2, column := "c",
      value := Val.raw "v", retries := 0, created_at := 0,
      last_attempt := none }
    20 3 ["other"] (by decide) (by decide) (by decide) (by decide)
  exact ⟨h.1, h.2.2.1 (by decide)⟩

/-- Modelled from the spec: the executor module (`trade_executor.py`, class
`GoogleSheetTradeManager`) is not among the sources — only its tests are.
Its in-memory `active_positions` entry carries the bracket-leg order ids
consumed by `cancel_opposite_order`. -/
structure TrackedPos where
  row_index : Int
  tp_order_id : Option String
  sl_order_id : Option String
  status : String
deriving DecidableEq

/-- The `active_positions.get(symbol)` lookup of the executor. -/
def findTracked (positions : List (String × TrackedPos)) (symbol : String) :
    Option TrackedPos :=
  (positions.find? (fun p => p.1 == symbol)).map Prod.snd

/-- Modelled from the spec: `cancel_opposite_order(symbol, filled_order_id)`
looks up the tracked position for `symbol`, determines which leg
(`tp_order_id` or `sl_order_id`) matches `filled_order_id`, and issues a
cancel request for the sibling leg against the external exchange client —
modelled by the `accept` predicate, with the issued cancel calls returned
alongside the flag. It returns `true` only if a sibling order id was
present and the cancel was accepted; untracked symbols, a filled id
matching neither leg, and a missing sibling yield `false` with no external
call. -/
def cancel_opposite_order (positions : List (String × TrackedPos))
    (accept : String → Bool) (symbol filled_order_id : String) :
    Bool × List String :=
  match findTracked positions symbol with
  | none => (false, [])
  | some p =>
      if p.tp_order_id = some filled_order_id then
        match p.sl_order_id with
        | some sib => (accept sib, [sib])
        | none => (false, [])
      else if p.sl_order_id = some filled_order_id then
        match p.tp_order_id with
        | some sib => (accept sib, [sib])
        | none => (false, [])
      else (false, [])

/-- C9: `cancel_opposite_order` returns `false` — issuing no external
cancel call — when the symbol is untracked, when the filled id matches
neither leg, or when no sibling order id exists; and it returns `true`
exactly when a sibling order id was present for the matched leg and the
external client accepted its cancellation (the one call issued being for
that sibling). -/
theorem claim9_cancel_opposite (positions : List (String × TrackedPos))
    (accept : String → Bool) (symbol filled : String) :
    (findTracked positions symbol = none →
      cancel_opposite_order positions accept symbol filled = (false, [])) ∧
    (∀ p, findTracked positions symbol = some p →
      ((p.tp_order_id ≠ some filled ∧ p.sl_order_id ≠ some filled) →
        cancel_opposite_order positions accept symbol filled = (false, [])) ∧
      ((p.tp_order_id = some filled ∧ p.sl_order_id = none) →
        cancel_opposite_order positions accept symbol filled = (false, [])) ∧
      ((p.sl_order_id = some filled ∧ p.tp_order_id = none) →
        cancel_opposite_order positions accept symbol filled = (false, []))) ∧
    ((cancel_opposite_order positions accept symbol filled).1 = true ↔
      ∃ p sib, findTracked positions symbol = some p ∧
        ((p.tp_order_id = some filled ∧ p.sl_order_id = some sib) ∨
          (p.tp_order_id ≠ some filled ∧ p.sl_order_id = some filled ∧
            p.tp_order_id = some sib)) ∧
        accept sib = true ∧
        (cancel_opposite_order positions accept symbol filled).2 = [sib]) := by
  unfold cancel_opposite_order
  cases hl : findTracked positions symbol with
  | none =>
      refine ⟨fun _ => rfl, ?_, ?_⟩
      · intro p hp
        cases hp
      · simp
  | some p =>
      refine ⟨(fun hc => nomatch hc), ?_, ?_⟩
      · intro q hq
        injection hq with hq
        subst hq
        dsimp only
        refine ⟨?_, ?_, ?_⟩
        · intro ⟨htp, hsl⟩
          rw [if_neg htp, if_neg hsl]
        · intro ⟨htp, hsl⟩
          rw [if_pos htp, hsl]
        · intro ⟨hsl, htp⟩
          have htp' : p.tp_order_id ≠ some filled := by
            rw [htp]; exact fun h => by cases h
          rw [if_neg htp', if_pos hsl, htp]
      · dsimp only
        by_cases htp : p.tp_order_id = some filled
        · rw [if_pos htp]
          cases hsl : p.sl_order_id with
          | none =>
              simp only [iff_def]
              constructor
              · intro h
                cases h
              · rintro ⟨q, sib, hq, hcase, hacc, hcalls⟩
                injection hq with hq
                subst hq
                rcases hcase with ⟨_, h2⟩ | ⟨h1, _, _⟩
                · rw [hsl] at h2; cases h2
                · exact absurd htp h1
          | some sib =>
              constructor
              · intro hacc
                exact ⟨p, sib, rfl, Or.inl ⟨htp, hsl⟩, hacc, rfl⟩
              · rintro ⟨q, sib2, hq, hcase, hacc, hcalls⟩
                injection hq with hq
                subst hq
                rcases hcase with ⟨_, h2⟩ | ⟨h1, _, _⟩
                · rw [hsl] at h2
                  injection h2 with h2
                  subst h2
                  exact hacc
                · exact absurd htp h1
        · rw [if_neg htp]
          by_cases hsl : p.sl_order_id = some filled
          · rw [if_pos hsl]
            cases htpv : p.tp_order_id with
            | none =>
                simp only [iff_def]
                constructor
                · intro h
                  cases h
                · rintro ⟨q, sib, hq, hcase, hacc, hcalls⟩
                  injection hq with hq
                  subst hq
                  rcases hcase with ⟨h1, _⟩ | ⟨_, _, h3⟩
                  · exact absurd h1 htp
                  · rw [htpv] at h3; cases h3
            | some sib =>
                constructor
                · intro hacc
                  exact ⟨p, sib, rfl, Or.inr ⟨htp, hsl, htpv⟩, hacc, rfl⟩
                · rintro ⟨q, sib2, hq, hcase, hacc, hcalls⟩
                  injection hq with hq
                  subst hq
                  rcases hcase with ⟨h1, _⟩ | ⟨_, _, h3⟩
                  · exact absurd h1 htp
                  · rw [htpv] at h3
                    injection h3 with h3
                    subst h3
                    exact hacc
          · rw [if_neg hsl]
            simp only [iff_def]
            constructor
            · intro h
              cases h
            · rintro ⟨q, sib, hq, hcase, hacc, hcalls⟩
              injection hq with hq
              subst hq
              rcases hcase with ⟨h1, _⟩ | ⟨_, h2, _⟩
              · exact absurd h1 htp
              · exact absurd h2 hsl

/-- C9 (witness): the theorem at the test's concrete state — a tracked
`"BTC_USDT"` position with legs `"tp1"`/`"sl1"` and an exchange client that
accepts every cancel: filling `"tp1"` cancels `"sl1"` and returns `true`;
an untracked symbol returns `false` with no call. -/
theorem claim9_witness :
    (cancel_opposite_order
        [("BTC_USDT", { row_index := 2, tp_order_id := some "tp1",
                        sl_order_id := some "sl1",
                        status := "POSITION_ACTIVE" })]
        (fun _ => true) "BTC_USDT" "tp1").1 = true ∧
    cancel_opposite_order
        [("BTC_USDT", { row_index := 2, tp_order_id := some "tp1",
                        sl_order_id := some "sl1",
                        status := "POSITION_ACTIVE" })]
        (fun _ => true) "ETH_USDT" "tp1" = (false, []) := by
  have h := claim9_cancel_opposite
    [("BTC_USDT", { row_index := 2, tp_order_id := some "tp1",
                    sl_order_id := some "sl1", status := "POSITION_ACTIVE" })]
    (fun _ => true) "BTC_USDT" "tp1"
  have h2 := claim9_cancel_opposite
    [("BTC_USDT", { row_index := 2, tp_order_id := some "tp1",
                    sl_order_id := some "sl1", status := "POSITION_ACTIVE" })]
    (fun _ => true) "ETH_USDT" "tp1"
  refine ⟨?_, h2.1 (by rfl)⟩
  exact h.2.2.mpr ⟨{ row_index := 2, tp_order_id := some "tp1",
                     sl_order_id := some "sl1", status := "POSITION_ACTIVE" },
    "sl1", rfl, Or.inl ⟨rfl, rfl⟩, rfl, rfl⟩

end DbQueue
